import Mathlib

/-!
Verification of the windowed sample generator of the Word2Vec data-preparation
notebook (CBOW and Skip-gram table generation).

The embedding below follows the generation cell of the notebook:

  window_size = 5
  cbow = np.zeros(( len(tokens)-(2*window_size) , (2*window_size)+1 ), dtype=np.int32)
  skipgram = np.zeros(((len(tokens)-(2*window_size))*(2*window_size), 2), dtype=np.int32)
  for center_idx, pos in enumerate(range(window_size, len(tokens)-window_size)):
      center = tokens[pos]
      context = tokens[pos-window_size:pos] + tokens[pos+1:pos+window_size+1]
      cbow_sample = np.array( vocabulary.lookup_indices(context) + vocabulary.lookup_indices([center]) )
      cbow[pos-window_size] = cbow_sample
      for idx, c in enumerate(context):
          skipgram_sample = np.array(vocabulary.lookup_indices([center]) + vocabulary.lookup_indices([c]) )
          skipgram[(center_idx*window_size*2)+idx] = skipgram_sample

The vocabulary lookup is abstracted as a function parameter; the notebook
instantiates it with the torchtext vocabulary (strings to indices, with a
default index for out-of-vocabulary tokens, cell with set_default_index),
and the specification abstracts it as the identity on already-resolved
integer identifiers.  Numpy semantics that matter here are modelled
explicitly: np.zeros raises ValueError on a negative dimension, and
assignment into an int32 array wraps the stored values to 32-bit signed
integers.
-/

/-- Wrapping of an integer to a 32-bit signed integer, as numpy does when a
Python int is stored into an array of dtype int32. -/
def toInt32 (x : Int) : Int := (x + 2 ^ 31) % 2 ^ 32 - 2 ^ 31

/-- Python list slice l[a:b] for non-negative bounds a and b. -/
def pySlice (l : List α) (a b : Nat) : List α := (l.drop a).take (b - a)

/-- The context window of the generation loop at center position pos:
tokens[pos-w:pos] + tokens[pos+1:pos+w+1]. -/
def contextAt (tokens : List τ) (w pos : Nat) : List τ :=
  pySlice tokens (pos - w) pos ++ pySlice tokens (pos + 1) (pos + w + 1)

/-- The center token tokens[pos] of the generation loop. -/
def centerAt [Inhabited τ] (tokens : List τ) (pos : Nat) : τ :=
  tokens.getD pos default

/-- A zero-initialised numpy matrix, np.zeros((rows, cols)), as a list of rows. -/
def npZeros (rows cols : Nat) : List (List Int) :=
  List.replicate rows (List.replicate cols 0)

/-- Assignment of a row into an int32 numpy matrix: the stored values are
wrapped to 32-bit signed integers. -/
def setRow (m : List (List Int)) (i : Nat) (row : List Int) : List (List Int) :=
  m.set i (row.map toInt32)

/-- One iteration of the outer loop, restricted to its effect on the cbow
array: cbow[pos - window_size] = lookup(context) + lookup([center]). -/
def cbowStep [Inhabited τ] (lookup : τ → Int) (tokens : List τ) (w : Nat)
    (cb : List (List Int)) (center_idx : Nat) : List (List Int) :=
  let pos := w + center_idx
  setRow cb (pos - w)
    ((contextAt tokens w pos).map lookup ++ [lookup (centerAt tokens pos)])

/-- One iteration of the outer loop, restricted to its effect on the skipgram
array: for idx, c in enumerate(context):
skipgram[(center_idx*window_size*2)+idx] = lookup([center]) + lookup([c]). -/
def skipgramStep [Inhabited τ] (lookup : τ → Int) (tokens : List τ) (w : Nat)
    (sg : List (List Int)) (center_idx : Nat) : List (List Int) :=
  let pos := w + center_idx
  ((contextAt tokens w pos).enum).foldl
    (fun sg2 p =>
      setRow sg2 (center_idx * w * 2 + p.1)
        ([lookup (centerAt tokens pos)] ++ [lookup p.2]))
    sg

/-- The failure numpy raises when np.zeros is given a negative dimension
(ValueError: negative dimensions are not allowed). -/
inductive NpError where
  | negativeDimension
deriving DecidableEq, Repr

/-- The two tables produced by the generation cell. -/
structure Tables where
  cbow : List (List Int)
  skipgram : List (List Int)
deriving DecidableEq, Repr

/-- The windowed sample generator: the generation cell of the notebook, with
the token list, the window radius and the vocabulary lookup as parameters.
The dimension expressions of the two np.zeros calls are computed over the
integers; a negative dimension is the ValueError numpy raises there.
Otherwise the loop runs over center_idx in 0..N-2w-1 with
pos = window_size + center_idx, exactly as enumerate(range(window_size,
len(tokens)-window_size)) does. -/
def generate [Inhabited τ] (lookup : τ → Int) (tokens : List τ) (w : Int) :
    Except NpError Tables :=
  let N : Int := tokens.length
  if N - 2 * w < 0 ∨ 2 * w + 1 < 0 ∨ (N - 2 * w) * (2 * w) < 0 then
    .error .negativeDimension
  else
    let wn := w.toNat
    let m := tokens.length - 2 * wn
    let st := (List.range m).foldl
      (fun st center_idx =>
        (cbowStep lookup tokens wn st.1 center_idx,
         skipgramStep lookup tokens wn st.2 center_idx))
      (npZeros m (2 * wn + 1), npZeros (m * (2 * wn)) 2)
    .ok ⟨st.1, st.2⟩

/-- The generator applied to already-resolved integer identifiers: the
vocabulary lookup is the identity, as the specification assumes for its
contract (tokens are vocabulary indices). -/
def generateIds (tokens : List Int) (w : Int) : Except NpError Tables :=
  generate id tokens w

/-- The torchtext vocabulary of the notebook: an ordered list of token
strings (index = position) together with the default index installed by
set_default_index for out-of-vocabulary lookups. -/
structure Vocab where
  itos : List String
  defaultIndex : Nat
deriving DecidableEq, Repr

/-- Index lookup of one token: its position in the vocabulary, or the
default index when the token is absent (set_default_index semantics). -/
def Vocab.lookupIndex (v : Vocab) (t : String) : Nat :=
  match v.itos.indexOf? t with
  | some i => i
  | none => v.defaultIndex

/-- The special tokens prepended to the vocabulary in the notebook. -/
def SPECIALS : List String := ["<PAD>", "<UNK>", "<SOS>", "<EOS>"]

/-- Vocabulary construction of the notebook: specials first, then the
ordered top tokens; the default index is vocabulary[UNK_TOKEN]. -/
def mkVocabulary (topTokens : List String) : Vocab :=
  let itos := SPECIALS ++ topTokens
  { itos := itos,
    defaultIndex := (itos.indexOf? "<UNK>").getD 0 }

/-- The generator as the notebook runs it: string tokens resolved through
the vocabulary. -/
def generateVocab (v : Vocab) (tokens : List String) (w : Int) :
    Except NpError Tables :=
  generate (fun s => ((v.lookupIndex s : Nat) : Int)) tokens w

/-- Closed form of the cbow row written for center index i (derived; proven
equal to the loop's output below). -/
def cbowRowAt [Inhabited τ] (lookup : τ → Int) (tokens : List τ) (w i : Nat) :
    List Int :=
  ((contextAt tokens w (w + i)).map lookup
    ++ [lookup (centerAt tokens (w + i))]).map toInt32

/-- Closed form of the block of skipgram rows written for center index i
(derived; proven equal to the loop's output below). -/
def skipGroupAt [Inhabited τ] (lookup : τ → Int) (tokens : List τ) (w i : Nat) :
    List (List Int) :=
  (contextAt tokens w (w + i)).map
    (fun c => [toInt32 (lookup (centerAt tokens (w + i))), toInt32 (lookup c)])

/-! Helper lemmas about the loop state. -/

/-- A fold whose step acts componentwise on a pair acts as two independent
folds. -/
theorem foldl_pair (l : List ι) (f : α → ι → α) (g : β → ι → β) (a : α) (b : β) :
    l.foldl (fun st i => (f st.1 i, g st.2 i)) (a, b) = (l.foldl f a, l.foldl g b) := by
  induction l generalizing a b with
  | nil => rfl
  | cons x xs ih => simpa using ih (f a x) (g b x)

/-- Writing row i at index i, for i over an initial range, replaces the
prefix of the list by the written rows. -/
theorem range_foldl_set (f : Nat → α) :
    ∀ (m : Nat) (l0 : List α), m ≤ l0.length →
      (List.range m).foldl (fun l i => l.set i (f i)) l0
        = (List.range m).map f ++ l0.drop m := by
  intro m
  induction m with
  | zero => intro l0 h; simp
  | succ k ih =>
    intro l0 h
    rw [List.range_succ, List.foldl_append, ih l0 (by omega)]
    simp only [List.foldl_cons, List.foldl_nil]
    rw [List.set_append_right _ _ (by simp)]
    simp only [List.length_map, List.length_range, Nat.sub_self]
    rw [List.drop_eq_getElem_cons (show k < l0.length by omega), List.set_cons_zero]
    simp

/-- Taking one past a just-written cell splits off the written value. -/
theorem take_succ_set (l : List α) (i : Nat) (v : α) (h : i < l.length) :
    (l.set i v).take (i + 1) = l.take i ++ [v] := by
  rw [List.set_eq_take_cons_drop v h, List.take_append_eq_append_take]
  have h1 : (l.take i).length = i := by simp; omega
  rw [List.take_of_length_le (by omega), h1]
  simp

/-- Writing consecutive cells base+k, base+k+1, ... with the values of a
list replaces exactly that segment. -/
theorem enumFrom_foldl_set (g : τ → α) :
    ∀ (xs : List τ) (k base : Nat) (l0 : List α),
      base + k + xs.length ≤ l0.length →
      (xs.enumFrom k).foldl (fun l p => l.set (base + p.1) (g p.2)) l0
        = l0.take (base + k) ++ xs.map g ++ l0.drop (base + k + xs.length) := by
  intro xs
  induction xs with
  | nil =>
    intro k base l0 h
    simp
  | cons x xs ih =>
    intro k base l0 h
    simp only [List.enumFrom_cons, List.foldl_cons, List.length_cons] at h ⊢
    have hlt : base + k < l0.length := by omega
    rw [ih (k + 1) base (l0.set (base + k) (g x)) (by simp; omega)]
    have e1 : base + (k + 1) = (base + k) + 1 := by omega
    rw [e1, take_succ_set l0 (base + k) (g x) hlt,
      List.drop_set_of_lt _ _ (show base + k < base + k + 1 + xs.length by omega)]
    have e2 : base + k + 1 + xs.length = base + k + (xs.length + 1) := by omega
    rw [e2]
    simp

@[simp] theorem npZeros_length (r c : Nat) : (npZeros r c).length = r := by
  simp [npZeros]

/-- The context window at a valid center position has exactly 2w entries. -/
theorem contextAt_length (tokens : List τ) (w i : Nat)
    (h : i + 2 * w < tokens.length) :
    (contextAt tokens w (w + i)).length = 2 * w := by
  simp only [contextAt, pySlice, List.length_append, List.length_take,
    List.length_drop, Nat.add_sub_cancel_left]
  omega

@[simp] theorem skipGroupAt_length [Inhabited τ] (lookup : τ → Int)
    (tokens : List τ) (w i : Nat) :
    (skipGroupAt lookup tokens w i).length = (contextAt tokens w (w + i)).length := by
  simp [skipGroupAt]

/-- The inner skip-gram loop writes exactly the block of rows of its center,
leaving the rest of the array unchanged. -/
theorem skipgramStep_eq [Inhabited τ] (lookup : τ → Int) (tokens : List τ)
    (w : Nat) (sg : List (List Int)) (i : Nat)
    (h : i * w * 2 + (contextAt tokens w (w + i)).length ≤ sg.length) :
    skipgramStep lookup tokens w sg i
      = sg.take (i * w * 2) ++ skipGroupAt lookup tokens w i
        ++ sg.drop (i * w * 2 + (contextAt tokens w (w + i)).length) := by
  simp only [skipgramStep]
  exact enumFrom_foldl_set
    (fun c => [toInt32 (lookup (centerAt tokens (w + i))), toInt32 (lookup c)])
    (contextAt tokens w (w + i)) 0 (i * w * 2) sg (by simpa using h)

/-- The outer skip-gram loop over an interval of center indices writes all
the corresponding blocks in order. -/
theorem skipgram_blocks_fold [Inhabited τ] (lookup : τ → Int) (tokens : List τ)
    (w : Nat) (hN : 2 * w ≤ tokens.length) :
    ∀ (n s : Nat) (sg : List (List Int)),
      s + n ≤ tokens.length - 2 * w →
      sg.length = (tokens.length - 2 * w) * (2 * w) →
      (List.range' s n).foldl (skipgramStep lookup tokens w) sg
        = sg.take (s * w * 2)
          ++ List.flatten ((List.range' s n).map (skipGroupAt lookup tokens w))
          ++ sg.drop ((s + n) * w * 2) := by
  intro n
  induction n with
  | zero =>
    intro s sg hs hlen
    simp
  | succ n ih =>
    intro s sg hs hlen
    have hctx : (contextAt tokens w (w + s)).length = 2 * w :=
      contextAt_length tokens w s (by omega)
    have hkey : s * w * 2 + 2 * w ≤ (tokens.length - 2 * w) * (2 * w) := by
      calc s * w * 2 + 2 * w = (s + 1) * (2 * w) := by ring
        _ ≤ (tokens.length - 2 * w) * (2 * w) :=
          Nat.mul_le_mul_right _ (by omega)
    rw [List.range'_succ]
    simp only [List.foldl_cons]
    rw [skipgramStep_eq lookup tokens w sg s (by omega)]
    have hlen2 : (sg.take (s * w * 2) ++ skipGroupAt lookup tokens w s
        ++ sg.drop (s * w * 2 + (contextAt tokens w (w + s)).length)).length
        = (tokens.length - 2 * w) * (2 * w) := by
      simp only [List.length_append, List.length_take, List.length_drop,
        skipGroupAt_length, hctx, hlen]
      omega
    rw [ih (s + 1) _ (by omega) hlen2]
    have htk : (sg.take (s * w * 2) ++ skipGroupAt lookup tokens w s).length
        = (s + 1) * w * 2 := by
      simp only [List.length_append, List.length_take, skipGroupAt_length, hctx, hlen]
      have : (s + 1) * w * 2 = s * w * 2 + 2 * w := by ring
      omega
    have htake : List.take ((s + 1) * w * 2)
        (sg.take (s * w * 2) ++ skipGroupAt lookup tokens w s
          ++ sg.drop (s * w * 2 + (contextAt tokens w (w + s)).length))
        = sg.take (s * w * 2) ++ skipGroupAt lookup tokens w s := by
      exact List.take_left' htk
    have hdrop : List.drop ((s + 1 + n) * w * 2)
        (sg.take (s * w * 2) ++ skipGroupAt lookup tokens w s
          ++ sg.drop (s * w * 2 + (contextAt tokens w (w + s)).length))
        = List.drop ((s + (n + 1)) * w * 2) sg := by
      rw [List.drop_append_eq_append_drop]
      have hmono : (s + 1) * w * 2 ≤ (s + 1 + n) * w * 2 := by
        have h0 := Nat.mul_le_mul_right (w * 2) (show s + 1 ≤ s + 1 + n by omega)
        calc (s + 1) * w * 2 = (s + 1) * (w * 2) := by ring
          _ ≤ (s + 1 + n) * (w * 2) := h0
          _ = (s + 1 + n) * w * 2 := by ring
      rw [List.drop_of_length_le (by omega)]
      have hd2 : (s + 1 + n) * w * 2
          - (sg.take (s * w * 2) ++ skipGroupAt lookup tokens w s).length
          = n * w * 2 := by
        rw [htk]
        have e1 : (s + 1 + n) * w * 2 = (s + 1) * w * 2 + n * w * 2 := by ring
        omega
      rw [hd2, List.drop_drop]
      have e3 : s * w * 2 + (contextAt tokens w (w + s)).length + n * w * 2
          = (s + (n + 1)) * w * 2 := by
        rw [hctx]; ring
      rw [e3, List.nil_append]
    rw [htake, hdrop]
    simp [List.append_assoc]

/-- The cbow loop writes row i at index i for every center index, turning
the zero array into the table of cbow rows. -/
theorem cbow_fold [Inhabited τ] (lookup : τ → Int) (tokens : List τ) (w m : Nat) :
    (List.range m).foldl (cbowStep lookup tokens w) (npZeros m (2 * w + 1))
      = (List.range m).map (cbowRowAt lookup tokens w) := by
  have hstep : cbowStep lookup tokens w
      = fun cb i => cb.set i (cbowRowAt lookup tokens w i) := by
    funext cb i
    simp [cbowStep, setRow, cbowRowAt, Nat.add_sub_cancel_left]
  rw [hstep, range_foldl_set _ m (npZeros m (2 * w + 1)) (by simp)]
  simp [npZeros]

/-- Closed form of the generator in the non-error case: the loop produces
exactly the table of cbow rows and the concatenation of the skip-gram
blocks, in center order. -/
theorem generate_eq [Inhabited τ] (lookup : τ → Int) (tokens : List τ) (w : Nat)
    (h : 2 * w ≤ tokens.length) :
    generate lookup tokens (w : Int) = .ok
      ⟨(List.range (tokens.length - 2 * w)).map (cbowRowAt lookup tokens w),
       List.flatten ((List.range (tokens.length - 2 * w)).map
         (skipGroupAt lookup tokens w))⟩ := by
  have hguard : ¬(((tokens.length : Int) - 2 * (w : Int) < 0)
      ∨ (2 * (w : Int) + 1 < 0)
      ∨ (((tokens.length : Int) - 2 * (w : Int)) * (2 * (w : Int)) < 0)) := by
    push_neg
    refine ⟨by omega, by positivity, ?_⟩
    have h1 : (0 : Int) ≤ (tokens.length : Int) - 2 * w := by omega
    have h2 : (0 : Int) ≤ 2 * (w : Int) := by positivity
    exact mul_nonneg h1 h2
  unfold generate
  rw [if_neg hguard]
  simp only [Int.toNat_natCast]
  rw [foldl_pair _ (cbowStep lookup tokens w) (skipgramStep lookup tokens w)]
  rw [cbow_fold]
  rw [List.range_eq_range' (tokens.length - 2 * w),
    skipgram_blocks_fold lookup tokens w h (tokens.length - 2 * w) 0
      (npZeros ((tokens.length - 2 * w) * (2 * w)) 2) (by omega) (by simp)]
  simp only [Nat.zero_mul, List.take_zero, Nat.zero_add, List.nil_append]
  have : ((tokens.length - 2 * w) * w * 2) = (npZeros ((tokens.length - 2 * w) * (2 * w)) 2).length := by
    simp; ring
  rw [this, List.drop_length]
  simp [← List.range_eq_range']

/-- When either np.zeros dimension is negative, the generator fails exactly
as numpy does. -/
theorem generate_error [Inhabited τ] (lookup : τ → Int) (tokens : List τ)
    (w : Int)
    (h : (tokens.length : Int) - 2 * w < 0 ∨ 2 * w + 1 < 0) :
    generate lookup tokens w = .error .negativeDimension := by
  unfold generate
  rw [if_pos]
  rcases h with h | h
  · exact Or.inl h
  · exact Or.inr (Or.inl h)

/-- Inversion of a successful run with a natural window radius: the input
was long enough and the tables are the closed-form ones. -/
theorem generate_ok_elim [Inhabited τ] (lookup : τ → Int) (tokens : List τ)
    (w : Nat) (t : Tables) (h : generate lookup tokens (w : Int) = .ok t) :
    2 * w ≤ tokens.length ∧
    t = ⟨(List.range (tokens.length - 2 * w)).map (cbowRowAt lookup tokens w),
         List.flatten ((List.range (tokens.length - 2 * w)).map
           (skipGroupAt lookup tokens w))⟩ := by
  by_cases hle : 2 * w ≤ tokens.length
  · refine ⟨hle, ?_⟩
    rw [generate_eq lookup tokens w hle] at h
    exact (Except.ok.injEq _ _).mp h |>.symm
  · rw [generate_error lookup tokens (w : Int) (Or.inl (by omega))] at h
    exact absurd h (by simp)

/-- An in-range python slice lists the elements at its positions in order. -/
theorem pySlice_eq_map [Inhabited τ] (l : List τ) (a k : Nat)
    (h : a + k ≤ l.length) :
    pySlice l a (a + k) = (List.range k).map (fun j => l.getD (a + j) default) := by
  apply List.ext_getElem
  · simp [pySlice]
    omega
  · intro j h1 h2
    simp only [pySlice, Nat.add_sub_cancel_left] at h1 ⊢
    have hj : j < k := by simpa using h2
    have hin : a + j < l.length := by omega
    simp [List.getElem_drop, List.getD_eq_getElem?_getD, List.getElem?_eq_getElem hin]

/-- The context window at center w + i lists the tokens at positions
i..i+w-1 and then w+i+1..w+i+w, in order. -/
theorem contextAt_eq_map [Inhabited τ] (tokens : List τ) (w i : Nat)
    (h : i + 2 * w < tokens.length) :
    contextAt tokens w (w + i)
      = (List.range w).map (fun j => tokens.getD (i + j) default)
        ++ (List.range w).map (fun j => tokens.getD (w + i + 1 + j) default) := by
  unfold contextAt
  congr 1
  · rw [Nat.add_sub_cancel_left, show w + i = i + w from Nat.add_comm w i]
    exact pySlice_eq_map tokens i w (by omega)
  · rw [show w + i + w + 1 = (w + i + 1) + w by omega]
    exact pySlice_eq_map tokens (w + i + 1) w (by omega)

/-- On values representable in 32 bits, the int32 store is exact. -/
theorem toInt32_eq_self (x : Int) (h1 : -2 ^ 31 ≤ x) (h2 : x < 2 ^ 31) :
    toInt32 x = x := by
  unfold toInt32
  have e : (2 : Int) ^ 31 = 2147483648 := by norm_num
  have e2 : (2 : Int) ^ 32 = 4294967296 := by norm_num
  rw [e, e2]
  rw [e] at h1 h2
  omega

/-- Every context entry is a token of the input sequence. -/
theorem mem_of_mem_contextAt (tokens : List τ) (w pos : Nat) (x : τ)
    (hx : x ∈ contextAt tokens w pos) : x ∈ tokens := by
  simp only [contextAt, pySlice, List.mem_append] at hx
  rcases hx with h | h
  · exact List.mem_of_mem_drop (List.mem_of_mem_take h)
  · exact List.mem_of_mem_drop (List.mem_of_mem_take h)

/-- The center at an in-range position is a token of the input sequence. -/
theorem centerAt_mem [Inhabited τ] (tokens : List τ) (pos : Nat)
    (h : pos < tokens.length) : centerAt tokens pos ∈ tokens := by
  unfold centerAt
  rw [List.getD_eq_getElem?_getD, List.getElem?_eq_getElem h]
  exact List.getElem_mem h

/-- Length of a concatenation of equally long blocks. -/
theorem length_flatten_uniform (g : Nat) :
    ∀ L : List (List α), (∀ l ∈ L, l.length = g) →
      L.flatten.length = L.length * g := by
  intro L
  induction L with
  | nil => simp
  | cons l L ih =>
    intro h
    simp only [List.flatten_cons, List.length_append, List.length_cons]
    rw [ih (fun x hx => h x (List.mem_cons_of_mem _ hx)),
      h l (List.mem_cons_self _ _)]
    ring

/-- Indexing into a concatenation of equally long blocks. -/
theorem flatten_uniform_getElem? (g : Nat) :
    ∀ (L : List (List α)) (i j : Nat), (∀ l ∈ L, l.length = g) →
      i < L.length → j < g →
      L.flatten[i * g + j]? = (L.getD i [])[j]? := by
  intro L
  induction L with
  | nil =>
    intro i j _ hi _
    simp at hi
  | cons l L ih =>
    intro i j hL hi hj
    have hlen : l.length = g := hL l (List.mem_cons_self _ _)
    cases i with
    | zero =>
      simp only [List.flatten_cons, Nat.zero_mul, Nat.zero_add, List.getD_cons_zero]
      exact List.getElem?_append_left (by omega)
    | succ i =>
      simp only [List.flatten_cons, List.getD_cons_succ]
      have e : (i + 1) * g + j = l.length + (i * g + j) := by rw [hlen]; ring
      rw [e, List.getElem?_append_right (Nat.le_add_right _ _),
        Nat.add_sub_cancel_left]
      exact ih i j (fun x hx => hL x (List.mem_cons_of_mem _ hx))
        (by simpa using hi) hj

/-- C5 counterexample: on tokens = [] with w = 1 (N = 0 < 2w+1) the
generator raises the numpy negative-dimension error instead of returning
zero-row tables. -/
theorem short_input_errors_not_empty :
    generateIds ([] : List Int) 1 = .error .negativeDimension ∧
    ¬ ∃ t, generateIds ([] : List Int) 1 = .ok t := by
  refine ⟨rfl, ?_⟩
  rintro ⟨t, ht⟩
  rw [show generateIds ([] : List Int) 1 = .error .negativeDimension from rfl] at ht
  exact Except.noConfusion ht

/-- C5 amended: with positive w, an input of length exactly 2w yields both
tables with zero rows, but an input shorter than 2w makes the np.zeros
allocation fail on a negative dimension instead. -/
theorem short_input_behavior (tokens : List Int) (w : Nat) (hw : 0 < w) :
    (tokens.length = 2 * w → generateIds tokens (w : Int) = .ok ⟨[], []⟩) ∧
    (tokens.length < 2 * w →
      generateIds tokens (w : Int) = .error .negativeDimension) := by
  constructor
  · intro he
    rw [show generateIds tokens (w : Int) = generate id tokens (w : Int) from rfl,
      generate_eq id tokens w (by omega)]
    rw [he]
    simp
  · intro hlt
    exact generate_error id tokens (w : Int) (Or.inl (by omega))

/-- C5 amended witness: length 2 = 2w at w = 1 gives empty tables. -/
theorem short_input_behavior_witness :
    generateIds [1, 2] ((1 : Nat) : Int) = .ok ⟨[], []⟩ :=
  (short_input_behavior [1, 2] 1 (by decide)).1 (by decide)

/-- C6 counterexample: with w = 0 the generator succeeds and returns tables
(a CBOW table of single-center rows and an empty Skip-gram table); no
InvalidArgument failure occurs. -/
theorem zero_radius_succeeds : generateIds [5] 0 = .ok ⟨[[5]], []⟩ := by
  rfl

/-- C6 amended: the code validates nothing about the radius. A negative
radius fails with the numpy negative-dimension error (from the 2w+1
column count), not a dedicated InvalidArgument; radius zero succeeds,
producing one CBOW row per token (just the center) and an empty Skip-gram
table. -/
theorem nonpositive_radius_behavior (tokens : List Int) (w : Int) :
    (w < 0 → generateIds tokens w = .error .negativeDimension) ∧
    (w = 0 → ∃ t, generateIds tokens w = .ok t ∧
      t.cbow.length = tokens.length ∧ t.skipgram = []) := by
  constructor
  · intro hneg
    exact generate_error id tokens w (Or.inr (by omega))
  · intro hzero
    subst hzero
    refine ⟨_, generate_eq id tokens 0 (by omega), ?_, ?_⟩
    · simp
    · rw [List.flatten_eq_nil_iff]
      intro l hl
      rcases List.mem_map.mp hl with ⟨i, _, rfl⟩
      simp [skipGroupAt, contextAt, pySlice]

/-- C6 amended witness: w = -1 errors on the negative column count. -/
theorem nonpositive_radius_behavior_witness :
    generateIds [7] (-1) = .error .negativeDimension :=
  (nonpositive_radius_behavior [7] (-1)).1 (by decide)

/-- C8: the generator is a pure function of its inputs; two runs on the
same token sequence and radius return the same result. -/
theorem generator_deterministic (tokens : List Int) (w : Int)
    (r1 r2 : Except NpError Tables)
    (h1 : generateIds tokens w = r1) (h2 : generateIds tokens w = r2) :
    r1 = r2 :=
  h1 ▸ h2 ▸ rfl

/-- C8 witness: two runs on the concrete input agree. -/
theorem generator_deterministic_witness :
    (Except.ok ⟨[[5]], []⟩ : Except NpError Tables)
      = (Except.ok ⟨[[5]], []⟩ : Except NpError Tables) :=
  generator_deterministic [5] 0 _ _ rfl rfl

/-- C7 counterexample: the input contains the token "bad", which is not in
the vocabulary, yet the generator succeeds and produces tables, resolving
the unknown token to the default index 1 (the UNK slot); no InvalidToken
failure exists in the code. -/
theorem oov_token_produces_tables :
    generateVocab (mkVocabulary ["good"]) ["bad", "good", "bad"] 1 =
      .ok ⟨[[1, 1, 4]], [[4, 1], [4, 1]]⟩ := by
  rfl

/-- C7 amended: whatever tokens the input holds, as long as the input is
long enough for the window the generator returns tables; every token is
resolved through the vocabulary (out-of-vocabulary ones to the default
index) and no token-validity failure exists. -/
theorem no_invalid_token_failure (v : Vocab) (tokens : List String) (w : Nat)
    (h : 2 * w ≤ tokens.length) :
    ∃ t, generateVocab v tokens (w : Int) = .ok t :=
  ⟨_, generate_eq (fun s => ((v.lookupIndex s : Nat) : Int)) tokens w h⟩

/-- C7 amended witness at a concrete out-of-vocabulary input. -/
theorem no_invalid_token_failure_witness :
    ∃ t, generateVocab (mkVocabulary ["good"]) ["bad", "good", "bad"]
      ((1 : Nat) : Int) = .ok t :=
  no_invalid_token_failure (mkVocabulary ["good"]) ["bad", "good", "bad"] 1
    (by decide)

/-- helper: a found index is inside the list. -/
theorem indexOf?_lt_length [BEq α] :
    ∀ {l : List α} {a : α} {i : Nat}, l.indexOf? a = some i → i < l.length := by
  intro l
  induction l with
  | nil =>
    intro a i h
    simp [List.indexOf?] at h
  | cons x xs ih =>
    intro a i h
    rw [List.indexOf?_cons] at h
    by_cases hx : x == a
    · simp only [hx, if_true] at h
      cases h
      simp
    · simp only [hx, if_false] at h
      rcases Option.map_eq_some'.mp h with ⟨j, hj, rfl⟩
      have := ih hj
      simp
      omega

/-- helper: every lookup lands inside the vocabulary when the default
index does. -/
theorem lookupIndex_lt (v : Vocab) (hd : v.defaultIndex < v.itos.length)
    (s : String) : v.lookupIndex s < v.itos.length := by
  unfold Vocab.lookupIndex
  cases hio : v.itos.indexOf? s with
  | none => exact hd
  | some i => exact indexOf?_lt_length hio

/-- helper: tokens absent from the vocabulary resolve to the default
index, as set_default_index prescribes. -/
theorem lookupIndex_of_not_mem (v : Vocab) (s : String) (hs : s ∉ v.itos) :
    v.lookupIndex s = v.defaultIndex := by
  unfold Vocab.lookupIndex
  have : v.itos.indexOf? s = none := by
    rw [List.indexOf?_eq_none_iff]
    intro x hx
    simp only [beq_iff_eq]
    intro he
    exact hs (he ▸ hx)
  rw [this]

/-- helper: the identity lookup of integer tokens in range keeps values. -/
theorem getD_mem_int (tokens : List Int) (pos : Nat) (h : pos < tokens.length) :
    tokens.getD pos 0 ∈ tokens := by
  rw [List.getD_eq_getElem?_getD, List.getElem?_eq_getElem h]
  exact List.getElem_mem h

/-- C4: on the concrete scenario tokens = [10..16] with w = 2, the generator
produces exactly the CBOW rows [10,11,13,14,12], [11,12,14,15,13],
[12,13,15,16,14] and the Skip-gram rows (12,10),(12,11),(12,13),(12,14)
followed by the groups for center positions 3 and 4. -/
theorem concrete_scenario_tables :
    generateIds [10, 11, 12, 13, 14, 15, 16] 2 =
      .ok ⟨[[10, 11, 13, 14, 12], [11, 12, 14, 15, 13], [12, 13, 15, 16, 14]],
           [[12, 10], [12, 11], [12, 13], [12, 14],
            [13, 11], [13, 12], [13, 14], [13, 15],
            [14, 12], [14, 13], [14, 15], [14, 16]]⟩ := by
  rfl

/-- C3: for N at least 2w+1 and positive w, the CBOW table has N-2w rows of
2w+1 columns each, and the Skip-gram table has (N-2w)*2w rows of 2 columns
each. -/
theorem tables_shape (tokens : List Int) (w : Nat) (hw : 0 < w)
    (hN : 2 * w + 1 ≤ tokens.length) :
    ∃ t, generateIds tokens (w : Int) = .ok t ∧
      t.cbow.length = tokens.length - 2 * w ∧
      (∀ r ∈ t.cbow, r.length = 2 * w + 1) ∧
      t.skipgram.length = (tokens.length - 2 * w) * (2 * w) ∧
      (∀ r ∈ t.skipgram, r.length = 2) := by
  refine ⟨_, generate_eq id tokens w (by omega), ?_, ?_, ?_, ?_⟩
  · simp
  · intro r hr
    rcases List.mem_map.mp hr with ⟨i, hi, rfl⟩
    have hi2 : i + 2 * w < tokens.length := by
      simp only [List.mem_range] at hi
      omega
    simp [cbowRowAt, contextAt_length tokens w i hi2]
  · rw [length_flatten_uniform (2 * w)]
    · simp
    · intro l hl
      rcases List.mem_map.mp hl with ⟨i, hi, rfl⟩
      have hi2 : i + 2 * w < tokens.length := by
        simp only [List.mem_range] at hi
        omega
      rw [skipGroupAt_length]
      exact contextAt_length tokens w i hi2
  · intro r hr
    rcases List.mem_flatten.mp hr with ⟨l, hl, hrl⟩
    rcases List.mem_map.mp hl with ⟨i, _, rfl⟩
    rcases List.mem_map.mp hrl with ⟨c, _, rfl⟩
    rfl

/-- helper: on identifier inputs (non-negative, below 2^31) the int32 store
of a selected token is the token itself. -/
theorem toInt32_getD_eq (tokens : List Int) (pos : Nat)
    (hid : ∀ x ∈ tokens, 0 ≤ x ∧ x < 2 ^ 31) (h : pos < tokens.length) :
    toInt32 (tokens.getD pos 0) = tokens.getD pos 0 := by
  have hm := getD_mem_int tokens pos h
  rcases hid _ hm with ⟨h1, h2⟩
  exact toInt32_eq_self _ (le_trans (by norm_num) h1) h2

/-- C1: for N at least 2w+1 and positive w, CBOW row i lists the tokens at
positions p-w..p-1, then p+1..p+w, then the center token at p = i+w. -/
theorem cbow_rows_are_context_then_center (tokens : List Int) (w : Nat)
    (hw : 0 < w) (hN : 2 * w + 1 ≤ tokens.length)
    (hid : ∀ x ∈ tokens, 0 ≤ x ∧ x < 2 ^ 31) :
    ∃ t, generateIds tokens (w : Int) = .ok t ∧
      ∀ i, i < tokens.length - 2 * w →
        t.cbow[i]? = some
          ((List.range w).map (fun j => tokens.getD (i + j) 0)
            ++ (List.range w).map (fun j => tokens.getD (i + w + 1 + j) 0)
            ++ [tokens.getD (i + w) 0]) := by
  refine ⟨_, generate_eq id tokens w (by omega), ?_⟩
  intro i hi
  rw [List.getElem?_map, List.getElem?_range hi, Option.map_some']
  congr 1
  have hm : i + 2 * w < tokens.length := by omega
  have hdef : (default : Int) = 0 := rfl
  simp only [cbowRowAt, List.map_id, List.map_append,
    contextAt_eq_map tokens w i hm, List.map_map, hdef, centerAt]
  congr 1
  · congr 1
    · apply List.map_congr_left
      intro j hj
      simp only [List.mem_range] at hj
      simp only [Function.comp_apply]
      exact toInt32_getD_eq tokens (i + j) hid (by omega)
    · apply List.map_congr_left
      intro j hj
      simp only [List.mem_range] at hj
      simp only [Function.comp_apply]
      have e : w + i + 1 + j = i + w + 1 + j := by omega
      rw [e]
      exact toInt32_getD_eq tokens (i + w + 1 + j) hid (by omega)
  · have e : w + i = i + w := by omega
    rw [List.map_cons, List.map_nil, e]
    simp only [id_eq]
    rw [toInt32_getD_eq tokens (i + w) hid (by omega)]

/-- C9: entries are stored through the int32 wrap, so whenever every input
identifier is representable in 32 bits, every entry of both tables is one
of the input token values, stored exactly. -/
theorem int32_storage_exact (tokens : List Int) (w : Nat)
    (hfit : ∀ x ∈ tokens, -2 ^ 31 ≤ x ∧ x < 2 ^ 31)
    (t : Tables) (h : generateIds tokens (w : Int) = .ok t) :
    (∀ row ∈ t.cbow, ∀ x ∈ row, x ∈ tokens) ∧
    (∀ row ∈ t.skipgram, ∀ x ∈ row, x ∈ tokens) := by
  obtain ⟨hle, ht⟩ := generate_ok_elim id tokens w t h
  subst ht
  have hmemctx : ∀ (pos : Nat) (c : Int), c ∈ contextAt tokens w pos →
      toInt32 c ∈ tokens := by
    intro pos c hc
    have hm := mem_of_mem_contextAt tokens w pos c hc
    rcases hfit _ hm with ⟨h1, h2⟩
    rw [toInt32_eq_self _ h1 h2]
    exact hm
  have hmemcen : ∀ pos : Nat, pos < tokens.length →
      toInt32 (centerAt tokens pos) ∈ tokens := by
    intro pos hpos
    have hm := centerAt_mem tokens pos hpos
    rcases hfit _ hm with ⟨h1, h2⟩
    rw [toInt32_eq_self _ h1 h2]
    exact hm
  constructor
  · intro row hrow x hx
    rcases List.mem_map.mp hrow with ⟨i, hi, rfl⟩
    simp only [List.mem_range] at hi
    simp only [cbowRowAt, List.map_id, List.map_append, List.map_cons,
      List.map_nil, List.mem_append, List.mem_map, List.mem_cons,
      List.not_mem_nil, or_false, id_eq] at hx
    rcases hx with ⟨c, hc, rfl⟩ | rfl
    · exact hmemctx _ c hc
    · exact hmemcen (w + i) (by omega)
  · intro row hrow x hx
    rcases List.mem_flatten.mp hrow with ⟨l, hl, hrl⟩
    rcases List.mem_map.mp hl with ⟨i, hi, rfl⟩
    simp only [List.mem_range] at hi
    rcases List.mem_map.mp hrl with ⟨c, hc, rfl⟩
    simp only [id_eq, List.mem_cons, List.not_mem_nil, or_false] at hx
    rcases hx with rfl | rfl
    · exact hmemcen (w + i) (by omega)
    · exact hmemctx _ c hc

/-- C9 witness at a concrete in-range input. -/
theorem int32_storage_exact_witness :
    (∀ row ∈ (⟨[[3, 5, 4]], [[4, 3], [4, 5]]⟩ : Tables).cbow,
      ∀ x ∈ row, x ∈ ([3, 4, 5] : List Int)) ∧
    (∀ row ∈ (⟨[[3, 5, 4]], [[4, 3], [4, 5]]⟩ : Tables).skipgram,
      ∀ x ∈ row, x ∈ ([3, 4, 5] : List Int)) :=
  int32_storage_exact [3, 4, 5] 1 (by decide) ⟨[[3, 5, 4]], [[4, 3], [4, 5]]⟩ rfl

/-- helper: every entry of both closed-form tables is the int32 store of
the lookup of some input token. -/
theorem generate_entries_pred [Inhabited τ] (lookup : τ → Int) (tokens : List τ)
    (w : Nat) (P : Int → Prop)
    (hP : ∀ y ∈ tokens, P (toInt32 (lookup y))) (t : Tables)
    (h : generate lookup tokens (w : Int) = .ok t) :
    ∀ row ∈ t.cbow ++ t.skipgram, ∀ x ∈ row, P x := by
  obtain ⟨hle, ht⟩ := generate_ok_elim lookup tokens w t h
  subst ht
  intro row hrow x hx
  rcases List.mem_append.mp hrow with hrow | hrow
  · rcases List.mem_map.mp hrow with ⟨i, hi, rfl⟩
    simp only [List.mem_range] at hi
    simp only [cbowRowAt, List.map_append, List.map_cons, List.map_nil,
      List.mem_append, List.mem_map, List.mem_cons, List.not_mem_nil,
      or_false, List.map_map] at hx
    rcases hx with ⟨c, hc, rfl⟩ | rfl
    · exact hP _ (mem_of_mem_contextAt tokens w _ c hc)
    · exact hP _ (centerAt_mem tokens (w + i) (by omega))
  · rcases List.mem_flatten.mp hrow with ⟨l, hl, hrl⟩
    rcases List.mem_map.mp hl with ⟨i, hi, rfl⟩
    simp only [List.mem_range] at hi
    rcases List.mem_map.mp hrl with ⟨c, hc, rfl⟩
    simp only [List.mem_cons, List.not_mem_nil, or_false] at hx
    rcases hx with rfl | rfl
    · exact hP _ (centerAt_mem tokens (w + i) (by omega))
    · exact hP _ (mem_of_mem_contextAt tokens w _ c hc)

/-- C10: provided the vocabulary default index is a valid index (as the
notebook arranges by pointing it at the UNK slot) and the vocabulary is of
realistic size, every entry of both produced tables is a valid vocabulary
index: out-of-vocabulary tokens resolve to the default index, and nothing
negative or out of range is ever stored. -/
theorem entries_within_vocab_range (v : Vocab) (tokens : List String)
    (w : Nat) (hd : v.defaultIndex < v.itos.length)
    (hlen : v.itos.length ≤ 2 ^ 31) (t : Tables)
    (h : generateVocab v tokens (w : Int) = .ok t) :
    (∀ s, s ∉ v.itos → v.lookupIndex s = v.defaultIndex) ∧
    (∀ row ∈ t.cbow ++ t.skipgram, ∀ x ∈ row,
      0 ≤ x ∧ x < (v.itos.length : Int)) := by
  refine ⟨fun s hs => lookupIndex_of_not_mem v s hs, ?_⟩
  refine generate_entries_pred (fun s => ((v.lookupIndex s : Nat) : Int)) tokens w
    (fun x => 0 ≤ x ∧ x < (v.itos.length : Int)) ?_ t h
  intro y _
  have hlt : v.lookupIndex y < v.itos.length := lookupIndex_lt v hd y
  have h31 : ((v.lookupIndex y : Nat) : Int) < 2 ^ 31 := by
    have h32 : (v.lookupIndex y : Nat) < 2 ^ 31 := by omega
    exact_mod_cast h32
  rw [toInt32_eq_self _ (le_trans (by norm_num) (Int.natCast_nonneg _)) h31]
  exact ⟨Int.natCast_nonneg _, by exact_mod_cast hlt⟩

/-- C10 witness at a concrete out-of-vocabulary input. -/
theorem entries_within_vocab_range_witness :
    (∀ s, s ∉ (mkVocabulary ["good"]).itos →
      (mkVocabulary ["good"]).lookupIndex s = (mkVocabulary ["good"]).defaultIndex) ∧
    (∀ row ∈ (⟨[[1, 1, 4]], [[4, 1], [4, 1]]⟩ : Tables).cbow
        ++ (⟨[[1, 1, 4]], [[4, 1], [4, 1]]⟩ : Tables).skipgram,
      ∀ x ∈ row, 0 ≤ x ∧ x < ((mkVocabulary ["good"]).itos.length : Int)) :=
  entries_within_vocab_range (mkVocabulary ["good"]) ["bad", "good", "bad"] 1
    (by decide) (by decide) ⟨[[1, 1, 4]], [[4, 1], [4, 1]]⟩ rfl

/-- C1 witness at the concrete scenario input. -/
theorem cbow_rows_are_context_then_center_witness :
    ∃ t, generateIds [10, 11, 12, 13, 14, 15, 16] ((2 : Nat) : Int) = .ok t ∧
      ∀ i, i < [10, 11, 12, 13, 14, 15, 16].length - 2 * 2 →
        t.cbow[i]? = some
          ((List.range 2).map
              (fun j => List.getD [10, 11, 12, 13, 14, 15, 16] (i + j) 0)
            ++ (List.range 2).map
              (fun j => List.getD [10, 11, 12, 13, 14, 15, 16] (i + 2 + 1 + j) 0)
            ++ [List.getD [10, 11, 12, 13, 14, 15, 16] (i + 2) 0]) :=
  cbow_rows_are_context_then_center [10, 11, 12, 13, 14, 15, 16] 2
    (by decide) (by decide) (by decide)

/-- helper: the last column (index 2w) of a cbow row is the stored center. -/
theorem cbowRowAt_getD_center [Inhabited τ] (lookup : τ → Int)
    (tokens : List τ) (w i : Nat)
    (hctx : (contextAt tokens w (w + i)).length = 2 * w) :
    (cbowRowAt lookup tokens w i).getD (2 * w) 0
      = toInt32 (lookup (centerAt tokens (w + i))) := by
  simp only [cbowRowAt, List.map_append, List.map_cons, List.map_nil,
    List.getD_eq_getElem?_getD]
  rw [List.getElem?_append_right (by simp [hctx])]
  simp [hctx]

/-- helper: column j < 2w of a cbow row is the stored j-th context entry. -/
theorem cbowRowAt_getD_context [Inhabited τ] (lookup : τ → Int)
    (tokens : List τ) (w i j : Nat)
    (hctx : (contextAt tokens w (w + i)).length = 2 * w) (hj : j < 2 * w) :
    (cbowRowAt lookup tokens w i).getD j 0
      = ((contextAt tokens w (w + i)).map (fun c => toInt32 (lookup c))).getD j 0 := by
  simp only [cbowRowAt, List.map_append, List.map_cons, List.map_nil,
    List.getD_eq_getElem?_getD]
  rw [List.getElem?_append_left (by simp [hctx]; omega)]
  simp [List.map_map, Function.comp_def]

/-- C2: Skip-gram rows of group i (rows i*2w .. i*2w+2w-1) all carry the
CBOW center of row i in their first column, and their second columns list
the first 2w columns of CBOW row i in order. -/
theorem skipgram_rows_match_cbow (tokens : List Int) (w : Nat)
    (hw : 0 < w) (hN : 2 * w + 1 ≤ tokens.length) :
    ∃ t, generateIds tokens (w : Int) = .ok t ∧
      ∀ i, i < tokens.length - 2 * w → ∀ j, j < 2 * w →
        ∃ row, t.cbow[i]? = some row ∧
          t.skipgram[i * (2 * w) + j]? = some [row.getD (2 * w) 0, row.getD j 0] := by
  refine ⟨_, generate_eq id tokens w (by omega), ?_⟩
  intro i hi j hj
  refine ⟨cbowRowAt id tokens w i, ?_, ?_⟩
  · rw [List.getElem?_map, List.getElem?_range hi, Option.map_some']
  · have hctx : (contextAt tokens w (w + i)).length = 2 * w :=
      contextAt_length tokens w i (by omega)
    have hL : ∀ l ∈ (List.range (tokens.length - 2 * w)).map
        (skipGroupAt id tokens w), l.length = 2 * w := by
      intro l hl
      rcases List.mem_map.mp hl with ⟨a, ha, rfl⟩
      rw [skipGroupAt_length]
      exact contextAt_length tokens w a
        (by simp only [List.mem_range] at ha; omega)
    rw [flatten_uniform_getElem? (2 * w) _ i j hL (by simpa using hi) hj]
    rw [List.getD_eq_getElem?_getD, List.getElem?_map, List.getElem?_range hi,
      Option.map_some', Option.getD_some]
    have hjc : j < (contextAt tokens w (w + i)).length := by omega
    simp only [skipGroupAt]
    rw [List.getElem?_map, List.getElem?_eq_getElem hjc, Option.map_some']
    congr 2
    · rw [cbowRowAt_getD_center id tokens w i hctx]
    · rw [cbowRowAt_getD_context id tokens w i j hctx hj,
        List.getD_eq_getElem?_getD, List.getElem?_map,
        List.getElem?_eq_getElem hjc, Option.map_some', Option.getD_some]

/-- C2 witness at the concrete scenario input. -/
theorem skipgram_rows_match_cbow_witness :
    ∃ t, generateIds [10, 11, 12, 13, 14, 15, 16] ((2 : Nat) : Int) = .ok t ∧
      ∀ i, i < [10, 11, 12, 13, 14, 15, 16].length - 2 * 2 → ∀ j, j < 2 * 2 →
        ∃ row, t.cbow[i]? = some row ∧
          t.skipgram[i * (2 * 2) + j]? = some [row.getD (2 * 2) 0, row.getD j 0] :=
  skipgram_rows_match_cbow [10, 11, 12, 13, 14, 15, 16] 2 (by decide) (by decide)

/-- C3 witness at the concrete scenario input. -/
theorem tables_shape_witness :
    ∃ t, generateIds [10, 11, 12, 13, 14, 15, 16] ((2 : Nat) : Int) = .ok t ∧
      t.cbow.length = [10, 11, 12, 13, 14, 15, 16].length - 2 * 2 ∧
      (∀ r ∈ t.cbow, r.length = 2 * 2 + 1) ∧
      t.skipgram.length = ([10, 11, 12, 13, 14, 15, 16].length - 2 * 2) * (2 * 2) ∧
      (∀ r ∈ t.skipgram, r.length = 2) :=
  tables_shape [10, 11, 12, 13, 14, 15, 16] 2 (by decide) (by decide)
